import Mathlib

/-!
# Verification of the dioxus-query cache / invalidation engine

Shallow embedding of `src/lib.rs` of the `dioxus-query` crate.

Modelling conventions:

* Time is a `Nat` counting milliseconds; `Instant` values are the creation
  time, so `instant.elapsed()` observed at time `now` is `now - instant`
  (truncated subtraction — the monotonic clock never runs backwards, so the
  truncation is never exercised on reachable inputs).
* `ScopeId` (the listener identity supplied by the host runtime) is a `Nat`;
  the `HashSet<ScopeId>` of listeners is a `List ScopeId`.
* `TypeId` (the fetch-function identity used by the registry key) is a `Nat`.
* An `Arc<RwLock<CachedResult<T, E>>>` cell is a reference `Ref : Nat` into an
  explicit store `Store T E := Ref → CachedResult T E`.  Dropping a registry
  entry does not touch the store, exactly as dropping one `Arc` clone does not
  deallocate the shared value.
* An asynchronous fetch function is replaced by its observable behaviour: the
  `QueryResult` it eventually produces is passed to the operation as an
  explicit parameter (an oracle), and the points where the registry or the
  clock may change across an `await` are explicit parameters as well.
* The scheduler callback `(self.scheduler)(listener)` is recorded in an event
  log instead of being executed.
* `registry.get(entry).unwrap()` (a panic when the entry is absent) is
  modelled by `Option`: `none` is the panic.
-/

namespace DioxusQuery

/-- `const STALE_TIME: u64 = 100;` (milliseconds). -/
def STALE_TIME : Nat := 100

/-- `enum QueryResult<T, E> { Ok(T), Err(E), Loading(Option<T>) }`. -/
inductive QueryResult (T E : Type) where
  | Ok : T → QueryResult T E
  | Err : E → QueryResult T E
  | Loading : Option T → QueryResult T E
  deriving DecidableEq

variable {T E K : Type}

/-- `QueryResult::is_ok`. -/
def QueryResult.is_ok : QueryResult T E → Bool
  | .Ok _ => true
  | _ => false

/-- `QueryResult::is_err`. -/
def QueryResult.is_err : QueryResult T E → Bool
  | .Err _ => true
  | _ => false

/-- `QueryResult::is_loading`. -/
def QueryResult.is_loading : QueryResult T E → Bool
  | .Loading _ => true
  | _ => false

/-- `Default for QueryResult`: `Loading(None)`. -/
def QueryResult.defaultValue : QueryResult T E := .Loading none

/-- `struct CachedResult<T, E> { value, instant: Option<Instant>, has_been_queried: bool }`. -/
structure CachedResult (T E : Type) where
  value : QueryResult T E
  instant : Option Nat
  has_been_queried : Bool
  deriving DecidableEq

/-- `CachedResult::is_fresh`, observed at time `now`:
`instant.elapsed().as_millis() < Duration::from_millis(STALE_TIME).as_millis()`,
and `false` when `instant` is `None`. -/
def CachedResult.is_fresh (c : CachedResult T E) (now : Nat) : Bool :=
  match c.instant with
  | some instant => decide (now - instant < STALE_TIME)
  | none => false

/-- `CachedResult::has_been_cached`: `self.instant.is_some()`. -/
def CachedResult.has_been_cached (c : CachedResult T E) : Bool :=
  c.instant.isSome

/-- `Default for CachedResult`: `Loading(None)`, no instant, not queried. -/
def CachedResult.defaultValue : CachedResult T E :=
  { value := .Loading none, instant := none, has_been_queried := false }

/-- `From<CachedResult<T, E>> for Option<T>`: project the previous value out
of the current state (`Ok(v) ↦ Some(v)`, `Err ↦ None`, `Loading(v) ↦ v`). -/
def cachedToOption (c : CachedResult T E) : Option T :=
  match c.value with
  | .Ok v => some v
  | .Err _ => none
  | .Loading v => v

/-- The listener identity (`ScopeId`) supplied by the host runtime. -/
abbrev ScopeId := Nat

/-- A reference into the store of shared `Arc<RwLock<CachedResult>>` cells. -/
abbrev Ref := Nat

/-- The heap of shared cached values. -/
abbrev Store (T E : Type) := Ref → CachedResult T E

/-- `*value.write().unwrap() = c` on the cell `r`. -/
def writeRef (store : Store T E) (r : Ref) (c : CachedResult T E) : Store T E :=
  fun x => if x = r then c else store x

/-- `struct QueryListeners { value, listeners, query_fn }`: the cache record.
The shared value is a store reference and the fetch function is kept as its
identity token (its behaviour is the oracle parameter of each operation). -/
structure QueryListeners where
  value : Ref
  listeners : List ScopeId
  query_fn : Nat
  deriving DecidableEq

/-- `struct RegistryEntry<K> { query_keys: Vec<K>, query_fn_id: TypeId }`. -/
structure RegistryEntry (K : Type) where
  query_keys : List K
  query_fn_id : Nat
  deriving DecidableEq

/-- `QueriesRegistry<T, E, K> = HashMap<RegistryEntry<K>, QueryListeners<T, E, K>>`,
modelled as an association list (the `HashMap` keeps keys distinct; iteration
order is arbitrary, so a list order is one admissible schedule). -/
abbrev Registry (K : Type) := List (RegistryEntry K × QueryListeners)

/-- The state owned by one `UseQueryClient`: the registry plus the heap of
shared cells (`nextRef` is the allocator for fresh cells). -/
structure ClientState (T E K : Type) where
  store : Store T E
  registry : Registry K
  nextRef : Ref

/-- `registry.get(entry)` (`get_entry` without the final `unwrap`): `none`
models the panic of `registry.get(entry).unwrap()` on an absent entry. -/
def lookupEntry [DecidableEq K] (reg : Registry K) (e : RegistryEntry K) :
    Option QueryListeners :=
  (reg.find? (fun p => decide (p.1 = e))).map (fun p => p.2)

/-- The `Loading` transition write (lines 132–136 and 190–194 of the source):
`CachedResult { value: Loading(cached_value), instant: Some(now), has_been_queried: true }`. -/
def loadingWrite (c : CachedResult T E) (now : Nat) : CachedResult T E :=
  { value := .Loading (cachedToOption c), instant := some now, has_been_queried := true }

/-- `value.write().unwrap().has_been_queried = true` (line 143). -/
def markQueried (c : CachedResult T E) : CachedResult T E :=
  { c with has_been_queried := true }

/-- The fetch-completion write (lines 147–151 and 205–209):
`CachedResult { value: new_value, instant: Some(now), has_been_queried: true }`. -/
def completionWrite (fetched : QueryResult T E) (now : Nat) : CachedResult T E :=
  { value := fetched, instant := some now, has_been_queried := true }

/-- The observable outcome of one `validate_new_query` run (lines 115–164):
the final content of the entry's cell, whether the fetch function was invoked,
the listener sets passed to the scheduler in order, and the sequence of values
written to the cell. -/
structure ValidateResult (T E : Type) where
  newValue : CachedResult T E
  fetchInvoked : Bool
  notified : List (List ScopeId)
  writes : List (CachedResult T E)
  deriving DecidableEq

/-- `validate_new_query` (lines 115–164), run on an entry whose record holds
the cell content `c` and listener set `listeners`.  `now` is the clock when the
decision is taken, `fetched` the result the fetch function eventually produces,
`nowDone` the clock at fetch completion and `listenersAtDone` the listener set
`get_entry` re-reads at completion (line 154); the last three are only relevant
when a fetch is due.  This atomic form assumes the entry is still registered at
completion — the absent case (a panic) is `validatePost` below. -/
def validate_new_query (c : CachedResult T E) (listeners : List ScopeId) (now : Nat)
    (fetched : QueryResult T E) (nowDone : Nat) (listenersAtDone : List ScopeId) :
    ValidateResult T E :=
  if (!c.is_fresh now && !c.value.is_loading) || !c.has_been_queried then
    -- Only change to `Loading` if had been changed at some point
    if c.has_been_cached then
      { newValue := completionWrite fetched nowDone
        fetchInvoked := true
        notified := [listeners, listenersAtDone]
        writes := [loadingWrite c now, markQueried (loadingWrite c now),
                   completionWrite fetched nowDone] }
    else
      { newValue := completionWrite fetched nowDone
        fetchInvoked := true
        notified := [listenersAtDone]
        writes := [markQueried c, completionWrite fetched nowDone] }
  else
    { newValue := c, fetchInvoked := false, notified := [listeners], writes := [] }

/-- The tail of `validate_new_query` after the `await` (lines 147–158): the
completion write to the shared cell `r`, then `get_entry` against the registry
as it stands at completion.  The second component is the listener set that is
notified; `none` is the panic of `get_entry`'s `unwrap` when the entry has been
deleted from the registry while the fetch was outstanding.  The write happens
before the lookup, exactly as in the source. -/
def validatePost [DecidableEq K] (st : ClientState T E K) (entry : RegistryEntry K)
    (r : Ref) (fetched : QueryResult T E) (nowDone : Nat) :
    Store T E × Option (List ScopeId) :=
  (writeRef st.store r (completionWrite fetched nowDone),
   (lookupEntry st.registry entry).map (fun ql => ql.listeners))

/-- One spawned refetch task of `invalidate_queries_inner` (lines 199–214): the
closure captures (`to_owned!`) the fetch function, the query keys, the listener
set built during the scan, and its own clone of the shared value. -/
structure FetchTask (K : Type) where
  query_fn : Nat
  query_keys : List K
  query_listeners : List ScopeId
  valueRef : Ref
  deriving DecidableEq

/-- `query_keys.iter().any(|k| keys_to_invalidate.contains(k))` (line 180). -/
def entryMatches [DecidableEq K] (query_keys keys_to_invalidate : List K) : Bool :=
  query_keys.any (fun k => decide (k ∈ keys_to_invalidate))

/-- The listener group built for one registry entry during the invalidation
scan (lines 177–184): the entry's listeners when at least one key matches,
empty otherwise. -/
def matchedListeners [DecidableEq K] (e : RegistryEntry K) (ql : QueryListeners)
    (keys : List K) : List ScopeId :=
  if entryMatches e.query_keys keys then ql.listeners else []

/-- The synchronous scan of `invalidate_queries_inner` (lines 166–216), one
registry entry at a time: for each entry whose listener group is non-empty,
write the `Loading` transition to its cell, record the immediate notification,
and push the spawned task.  Returns the store after all `Loading` writes, the
notified listener sets in order, and the spawned tasks in order. -/
def invalidateScanAux [DecidableEq K] :
    Registry K → Store T E → List K → Nat →
      Store T E × List (List ScopeId) × List (FetchTask K)
  | [], store, _, _ => (store, [], [])
  | (e, ql) :: rest, store, keys, now =>
    if matchedListeners e ql keys = [] then
      invalidateScanAux rest store keys now
    else
      ((invalidateScanAux rest
          (writeRef store ql.value (loadingWrite (store ql.value) now)) keys now).1,
       matchedListeners e ql keys ::
         (invalidateScanAux rest
           (writeRef store ql.value (loadingWrite (store ql.value) now)) keys now).2.1,
       (⟨ql.query_fn, e.query_keys, matchedListeners e ql keys, ql.value⟩ : FetchTask K) ::
         (invalidateScanAux rest
           (writeRef store ql.value (loadingWrite (store ql.value) now)) keys now).2.2)

/-- The outcome of the invalidation scan.  The registry is only read by the
scan (`self.queries_registry.borrow().iter()`), so it is returned unchanged. -/
structure InvalidateOutcome (T E K : Type) where
  store : Store T E
  registry : Registry K
  notified : List (List ScopeId)
  tasks : List (FetchTask K)

/-- The invalidation scan, packaged. -/
def invalidateScan [DecidableEq K] (reg : Registry K) (store : Store T E)
    (keys : List K) (now : Nat) : InvalidateOutcome T E K :=
  { store := (invalidateScanAux reg store keys now).1
    registry := reg
    notified := (invalidateScanAux reg store keys now).2.1
    tasks := (invalidateScanAux reg store keys now).2.2 }

/-- The body of one spawned refetch task (lines 202–214): await the fetch,
write the completion result through the captured reference to the shared cell,
and notify the captured listener group. -/
def completeTask (store : Store T E) (t : FetchTask K) (fetched : QueryResult T E)
    (nowDone : Nat) : Store T E × List ScopeId :=
  (writeRef store t.valueRef (completionWrite fetched nowDone), t.query_listeners)

/-- The observable outcome of a whole `invalidate_queries_inner` call:
the final store, the listener sets notified during the scan (before any
refetch completes), and the listener sets notified by the completed tasks. -/
structure InvalidateRun (T E : Type) where
  store : Store T E
  preNotified : List (List ScopeId)
  postNotified : List (List ScopeId)

/-- `invalidate_queries_inner` (lines 166–219): the scan followed by running
every spawned task to completion (`tasks.count().await`).  `fetch` is the
oracle giving the result each fetch function (identified by its token) returns
on the given keys; `nowDone` the clock at completion.  Tasks write to pairwise
distinct cells on reachable states, so running them in order is one admissible
concurrent schedule. -/
def invalidate_queries_inner [DecidableEq K] (reg : Registry K) (store : Store T E)
    (keys : List K) (now : Nat) (fetch : Nat → List K → QueryResult T E)
    (nowDone : Nat) : InvalidateRun T E :=
  let scan := invalidateScan reg store keys now
  let run := scan.tasks.foldl
    (fun acc t =>
      ((completeTask acc.1 t (fetch t.query_fn t.query_keys) nowDone).1,
       acc.2 ++ [(completeTask acc.1 t (fetch t.query_fn t.query_keys) nowDone).2]))
    (scan.store, ([] : List (List ScopeId)))
  { store := run.1, preNotified := scan.notified, postNotified := run.2 }

/-- The registration step of `use_query_config` (lines 356–385): look the
entry up; if absent, create a record with a fresh default cell and the given
fetch function; in both cases insert the calling scope into the listener set.
A fetch function supplied for an already-present entry is ignored, as in the
source (`or_insert`). -/
def subscribe [DecidableEq K] (st : ClientState T E K) (entry : RegistryEntry K)
    (fnId : Nat) (scope : ScopeId) : ClientState T E K :=
  match lookupEntry st.registry entry with
  | some _ =>
      { st with registry := st.registry.map (fun p =>
          if p.1 = entry then (p.1, { p.2 with listeners := insert scope p.2.listeners })
          else p) }
  | none =>
      { store := writeRef st.store st.nextRef CachedResult.defaultValue
        registry := st.registry ++ [(entry, ⟨st.nextRef, [scope], fnId⟩)]
        nextRef := st.nextRef + 1 }

/-- `query_listeners.listeners.remove(&self.scope_id)` applied inside the
registry (lines 245–247). -/
def removeListener [DecidableEq K] (reg : Registry K) (entry : RegistryEntry K)
    (scope : ScopeId) : Registry K :=
  reg.map (fun p =>
    if p.1 = entry then (p.1, { p.2 with listeners := p.2.listeners.erase scope })
    else p)

/-- `Drop for UseValue` (lines 241–258): remove this handle's listener from
its entry; if the listener set became empty, remove the entry from the
registry.  The source `unwrap`s the lookup — a live handle guarantees the
entry is present, so the absent branch (left as the identity here) is
unreachable. -/
def dropListener [DecidableEq K] (st : ClientState T E K) (entry : RegistryEntry K)
    (scope : ScopeId) : ClientState T E K :=
  if ((lookupEntry (removeListener st.registry entry scope) entry).map
        (fun ql => decide (ql.listeners = []))).getD false then
    { st with registry :=
        (removeListener st.registry entry scope).filter (fun p => decide (¬p.1 = entry)) }
  else
    { st with registry := removeListener st.registry entry scope }

/-! ## Mutation engine -/

/-- `enum MutationResult<T, E> { Ok(T), Err(E), Loading(Option<T>), Pending }`. -/
inductive MutationResult (T E : Type) where
  | Ok : T → MutationResult T E
  | Err : E → MutationResult T E
  | Loading : Option T → MutationResult T E
  | Pending : MutationResult T E
  deriving DecidableEq

/-- `From<MutationResult<T, E>> for Option<T>`. -/
def mutationToOption : MutationResult T E → Option T
  | .Ok v => some v
  | .Err _ => none
  | .Loading v => v
  | .Pending => none

/-- The state of one `UseMutation` handle: the shared mutation value and the
owning scope (its single listener). -/
structure UseMutation (T E : Type) where
  value : MutationResult T E
  scope_id : ScopeId
  deriving DecidableEq

/-- One observable event of a `mutate`/`mutate_silent` run: a write to the
shared value or a scheduler call. -/
inductive MutEvent (T E : Type) where
  | write : MutationResult T E → MutEvent T E
  | notifyListener : ScopeId → MutEvent T E
  deriving DecidableEq

/-- Whether an event is a write. -/
def MutEvent.is_write : MutEvent T E → Bool
  | .write _ => true
  | .notifyListener _ => false

/-- The outcome of one `mutate`/`mutate_silent` call: the handle afterwards,
the events in order, and the returned borrow of the value. -/
structure MutateRun (T E : Type) where
  handle : UseMutation T E
  events : List (MutEvent T E)
  returned : MutationResult T E
  deriving DecidableEq

/-- `UseMutation::mutate` (lines 426–445): write `Loading(prev)`, notify,
await the mutation function (its eventual result is the `mutated` oracle),
write the result, notify, return the new value. -/
def mutate (h : UseMutation T E) (mutated : MutationResult T E) : MutateRun T E :=
  { handle := { h with value := mutated }
    events := [.write (.Loading (mutationToOption h.value)), .notifyListener h.scope_id,
               .write mutated, .notifyListener h.scope_id]
    returned := mutated }

/-- `UseMutation::mutate_silent` (lines 449–462): the same writes as `mutate`
but without any scheduler call. -/
def mutate_silent (h : UseMutation T E) (mutated : MutationResult T E) : MutateRun T E :=
  { handle := { h with value := mutated }
    events := [.write (.Loading (mutationToOption h.value)), .write mutated]
    returned := mutated }

/-! ## Theorems -/

/-- C5: `is_fresh()` holds iff the timestamp is set and strictly less than the
100 ms staleness threshold has elapsed since it; in particular it is `false`
whenever the timestamp is unset. -/
theorem is_fresh_characterisation {T E : Type} :
    ∀ (c : CachedResult T E) (now : Nat),
      (c.is_fresh now = true ↔ ∃ t, c.instant = some t ∧ now - t < STALE_TIME)
    ∧ (c.instant = none → c.is_fresh now = false)
    ∧ STALE_TIME = 100 := by
  intro c now
  refine ⟨?_, ?_, rfl⟩
  · cases h : c.instant with
    | none => simp [CachedResult.is_fresh, h]
    | some t => simp [CachedResult.is_fresh, h]
  · intro h
    simp [CachedResult.is_fresh, h]

/-- Witness for C5 at a concrete input. -/
theorem is_fresh_characterisation_witness :
    (⟨.Ok 5, some 10, true⟩ : CachedResult Nat Nat).is_fresh 50 = true
    ∧ (⟨.Ok 5, none, true⟩ : CachedResult Nat Nat).is_fresh 50 = false :=
  ⟨(is_fresh_characterisation (⟨.Ok 5, some 10, true⟩ : CachedResult Nat Nat) 50).1.mpr
      ⟨10, rfl, by decide⟩,
   (is_fresh_characterisation (⟨.Ok 5, none, true⟩ : CachedResult Nat Nat) 50).2.1 rfl⟩

/-- C3: `validate_new_query` invokes the fetch function exactly when
`(not fresh AND not loading) OR not has_been_queried` holds at entry time;
otherwise it performs no fetch and no write, leaves the cached value
unchanged, and notifies exactly the entry's current listeners. -/
theorem validate_fetch_condition {T E : Type} :
    ∀ (c : CachedResult T E) (listeners : List ScopeId) (now : Nat)
      (fetched : QueryResult T E) (nowDone : Nat) (listenersAtDone : List ScopeId),
      ((validate_new_query c listeners now fetched nowDone listenersAtDone).fetchInvoked
        = ((!c.is_fresh now && !c.value.is_loading) || !c.has_been_queried))
    ∧ (((!c.is_fresh now && !c.value.is_loading) || !c.has_been_queried) = false →
        (validate_new_query c listeners now fetched nowDone listenersAtDone).newValue = c
        ∧ (validate_new_query c listeners now fetched nowDone listenersAtDone).notified
            = [listeners]
        ∧ (validate_new_query c listeners now fetched nowDone listenersAtDone).writes = []) := by
  intro c ls now f nd lsd
  by_cases h : ((!c.is_fresh now && !c.value.is_loading) || !c.has_been_queried) = true
  · refine ⟨?_, ?_⟩
    · by_cases hc : c.has_been_cached = true
      · simp [validate_new_query, h, hc]
      · simp [validate_new_query, h, hc]
    · intro hfalse
      rw [h] at hfalse
      exact absurd hfalse (by simp)
  · rw [Bool.not_eq_true] at h
    simp [validate_new_query, h]

/-- Witness for C3 at a concrete input on which no fetch is due. -/
theorem validate_fetch_condition_witness :
    (validate_new_query (⟨.Ok 5, some 10, true⟩ : CachedResult Nat Nat) [1] 20
        (.Ok 7) 30 [2]).fetchInvoked = false
    ∧ (validate_new_query (⟨.Ok 5, some 10, true⟩ : CachedResult Nat Nat) [1] 20
        (.Ok 7) 30 [2]).newValue = ⟨.Ok 5, some 10, true⟩
    ∧ (validate_new_query (⟨.Ok 5, some 10, true⟩ : CachedResult Nat Nat) [1] 20
        (.Ok 7) 30 [2]).notified = [[1]] := by
  have h := validate_fetch_condition (⟨.Ok 5, some 10, true⟩ : CachedResult Nat Nat)
    [1] 20 (.Ok 7) 30 [2]
  have h2 := h.2 (by decide)
  exact ⟨by rw [h.1]; decide, h2.1, h2.2.1⟩

/-- C8: `mutate(arg)` writes `Loading(prev)` with `prev` projected from the
current state (`Ok ↦ Some`, `Err`/`Pending` ↦ `None`, `Loading(x) ↦ x`),
notifies the listener, writes the mutation result, notifies again and returns
the newly written state; `mutate_silent` performs the identical writes and
never notifies. -/
theorem mutate_lifecycle {T E : Type} :
    ∀ (h : UseMutation T E) (mutated : MutationResult T E),
      ((mutate h mutated).events
        = [.write (.Loading (mutationToOption h.value)), .notifyListener h.scope_id,
           .write mutated, .notifyListener h.scope_id])
    ∧ (mutate h mutated).returned = mutated
    ∧ (mutate h mutated).handle.value = mutated
    ∧ (mutate_silent h mutated).events = (mutate h mutated).events.filter MutEvent.is_write
    ∧ (∀ ev ∈ (mutate_silent h mutated).events, MutEvent.is_write ev = true)
    ∧ (mutate_silent h mutated).handle = (mutate h mutated).handle
    ∧ (mutate_silent h mutated).returned = mutated
    ∧ (∀ v : T, mutationToOption (.Ok v : MutationResult T E) = some v)
    ∧ (∀ er : E, mutationToOption (.Err er : MutationResult T E) = none)
    ∧ mutationToOption (.Pending : MutationResult T E) = none
    ∧ (∀ x : Option T, mutationToOption (.Loading x : MutationResult T E) = x) := by
  intro h mutated
  refine ⟨rfl, rfl, rfl, rfl, ?_, rfl, rfl, fun _ => rfl, fun _ => rfl, rfl, fun _ => rfl⟩
  intro ev hev
  rcases hev with _ | ⟨_, hev⟩
  · rfl
  · rcases hev with _ | ⟨_, hev⟩
    · rfl
    · cases hev

/-- Witness for C8 at a concrete input. -/
theorem mutate_lifecycle_witness :
    (mutate (⟨.Ok 3, 4⟩ : UseMutation Nat Nat) (.Ok 8)).events
      = [.write (.Loading (some 3)), .notifyListener 4, .write (.Ok 8), .notifyListener 4]
    ∧ (mutate_silent (⟨.Ok 3, 4⟩ : UseMutation Nat Nat) (.Ok 8)).events
      = [.write (.Loading (some 3)), .write (.Ok 8)]
    ∧ MutEvent.is_write (.write (.Loading (some 3)) : MutEvent Nat Nat) = true := by
  have h := mutate_lifecycle (⟨.Ok 3, 4⟩ : UseMutation Nat Nat) (.Ok 8)
  refine ⟨by rw [h.1]; rfl, by rw [h.2.2.2.1, h.1]; rfl,
    h.2.2.2.2.1 (.write (.Loading (some 3))) (by decide)⟩

theorem lookupEntry_cons_self [DecidableEq K] (e : RegistryEntry K) (ql : QueryListeners)
    (rest : Registry K) : lookupEntry ((e, ql) :: rest) e = some ql := by
  simp [lookupEntry]

theorem lookupEntry_cons_ne [DecidableEq K] {e e' : RegistryEntry K} (h : e' ≠ e)
    (ql : QueryListeners) (rest : Registry K) :
    lookupEntry ((e', ql) :: rest) e = lookupEntry rest e := by
  simp [lookupEntry, h]

theorem lookupEntry_removeListener_self [DecidableEq K] (reg : Registry K)
    (entry : RegistryEntry K) (scope : ScopeId) :
    lookupEntry (removeListener reg entry scope) entry
      = (lookupEntry reg entry).map
          (fun ql => { ql with listeners := ql.listeners.erase scope }) := by
  induction reg with
  | nil => rfl
  | cons p rest ih =>
    obtain ⟨e', ql'⟩ := p
    by_cases h : e' = entry
    · subst h
      simp only [removeListener, List.map_cons, if_true]
      rw [lookupEntry_cons_self, lookupEntry_cons_self]
      rfl
    · simp only [removeListener, List.map_cons]
      rw [if_neg h, lookupEntry_cons_ne h, lookupEntry_cons_ne h]
      simpa [removeListener] using ih

theorem lookupEntry_removeListener_other [DecidableEq K] (reg : Registry K)
    {entry e' : RegistryEntry K} (h : e' ≠ entry) (scope : ScopeId) :
    lookupEntry (removeListener reg entry scope) e' = lookupEntry reg e' := by
  induction reg with
  | nil => rfl
  | cons p rest ih =>
    obtain ⟨e0, ql0⟩ := p
    by_cases h0 : e0 = entry
    · subst h0
      simp only [removeListener, List.map_cons, if_true]
      rw [lookupEntry_cons_ne (fun hc => h hc.symm),
        lookupEntry_cons_ne (fun hc => h hc.symm)]
      simpa [removeListener] using ih
    · simp only [removeListener, List.map_cons]
      rw [if_neg h0]
      by_cases he : e0 = e'
      · subst he
        rw [lookupEntry_cons_self, lookupEntry_cons_self]
      · rw [lookupEntry_cons_ne he, lookupEntry_cons_ne he]
        simpa [removeListener] using ih

theorem lookupEntry_filter_out_self [DecidableEq K] (reg : Registry K)
    (entry : RegistryEntry K) :
    lookupEntry (reg.filter (fun p => decide (¬p.1 = entry))) entry = none := by
  induction reg with
  | nil => rfl
  | cons p rest ih =>
    obtain ⟨e0, ql0⟩ := p
    by_cases h0 : e0 = entry
    · subst h0
      simpa using ih
    · simp only [List.filter_cons, decide_eq_true_eq]
      rw [if_pos (by simpa using h0)]
      rw [lookupEntry_cons_ne h0]
      exact ih

theorem lookupEntry_filter_out_other [DecidableEq K] (reg : Registry K)
    {entry e' : RegistryEntry K} (h : e' ≠ entry) :
    lookupEntry (reg.filter (fun p => decide (¬p.1 = entry))) e' = lookupEntry reg e' := by
  induction reg with
  | nil => rfl
  | cons p rest ih =>
    obtain ⟨e0, ql0⟩ := p
    by_cases h0 : e0 = entry
    · subst h0
      rw [lookupEntry_cons_ne (fun hc => (hc ▸ h) rfl)]
      simpa using ih
    · simp only [List.filter_cons, decide_eq_true_eq]
      rw [if_pos (by simpa using h0)]
      by_cases he : e0 = e'
      · subst he
        rw [lookupEntry_cons_self, lookupEntry_cons_self]
      · rw [lookupEntry_cons_ne he, lookupEntry_cons_ne he]
        exact ih

/-- C6: destroying a subscription handle removes its listener from the entry;
if it was the only listener the entry is deleted from the registry, otherwise
the entry remains with exactly the remaining listeners, the same shared cell
and the same fetch function.  In every case the store (hence the cached value)
and all other entries are untouched. -/
theorem drop_listener_lifecycle {T E K : Type} [DecidableEq K] (st : ClientState T E K)
    (entry : RegistryEntry K) (scope : ScopeId) (ql : QueryListeners)
    (hq : lookupEntry st.registry entry = some ql) :
    (dropListener st entry scope).store = st.store
    ∧ (ql.listeners = [scope] →
        lookupEntry (dropListener st entry scope).registry entry = none)
    ∧ (ql.listeners.erase scope ≠ [] →
        lookupEntry (dropListener st entry scope).registry entry
          = some ⟨ql.value, ql.listeners.erase scope, ql.query_fn⟩)
    ∧ (∀ e' : RegistryEntry K, e' ≠ entry →
        lookupEntry (dropListener st entry scope).registry e'
          = lookupEntry st.registry e') := by
  have hself : lookupEntry (removeListener st.registry entry scope) entry
      = some { ql with listeners := ql.listeners.erase scope } := by
    rw [lookupEntry_removeListener_self, hq]
    rfl
  refine ⟨?_, ?_, ?_, ?_⟩
  · unfold dropListener
    rw [hself]
    by_cases h : ql.listeners.erase scope = []
    · simp [h]
    · simp [h]
  · intro honly
    have herase : ql.listeners.erase scope = [] := by
      rw [honly]
      simp
    unfold dropListener
    rw [hself]
    simp only [Option.map_some', Option.getD_some, herase, decide_True, if_true]
    exact lookupEntry_filter_out_self _ entry
  · intro hne
    unfold dropListener
    rw [hself]
    simp only [Option.map_some', Option.getD_some]
    rw [if_neg (by simpa using hne)]
    exact hself
  · intro e' he'
    unfold dropListener
    rw [hself]
    simp only [Option.map_some', Option.getD_some]
    by_cases h : ql.listeners.erase scope = []
    · rw [if_pos (by simp [h])]
      rw [lookupEntry_filter_out_other _ he']
      exact lookupEntry_removeListener_other _ he' _
    · rw [if_neg (by simpa using h)]
      exact lookupEntry_removeListener_other _ he' _

/-- Witness for C6: a two-entry registry; dropping the only listener of the
first entry deletes it, dropping one of two listeners of the second keeps it
with the remaining listener. -/
theorem drop_listener_lifecycle_witness :
    lookupEntry (dropListener
        (⟨fun _ => CachedResult.defaultValue,
          [(⟨[5], 3⟩, ⟨0, [1], 3⟩), (⟨[6], 3⟩, ⟨1, [2, 7], 3⟩)], 2⟩ : ClientState Nat Nat Nat)
        ⟨[5], 3⟩ 1).registry ⟨[5], 3⟩ = none
    ∧ lookupEntry (dropListener
        (⟨fun _ => CachedResult.defaultValue,
          [(⟨[5], 3⟩, ⟨0, [1], 3⟩), (⟨[6], 3⟩, ⟨1, [2, 7], 3⟩)], 2⟩ : ClientState Nat Nat Nat)
        ⟨[6], 3⟩ 2).registry ⟨[6], 3⟩ = some ⟨1, [7], 3⟩
    ∧ lookupEntry (dropListener
        (⟨fun _ => CachedResult.defaultValue,
          [(⟨[5], 3⟩, ⟨0, [1], 3⟩), (⟨[6], 3⟩, ⟨1, [2, 7], 3⟩)], 2⟩ : ClientState Nat Nat Nat)
        ⟨[5], 3⟩ 1).registry ⟨[6], 3⟩ = some ⟨1, [2, 7], 3⟩ := by
  refine ⟨?_, ?_, ?_⟩
  · exact (drop_listener_lifecycle _ (⟨[5], 3⟩ : RegistryEntry Nat) 1 ⟨0, [1], 3⟩
      (by decide)).2.1 rfl
  · exact (drop_listener_lifecycle _ (⟨[6], 3⟩ : RegistryEntry Nat) 2 ⟨1, [2, 7], 3⟩
      (by decide)).2.2.1 (by decide)
  · exact (drop_listener_lifecycle _ (⟨[5], 3⟩ : RegistryEntry Nat) 1 ⟨0, [1], 3⟩
      (by decide)).2.2.2 ⟨[6], 3⟩ (by decide)

/-! ## Invalidation-scan lemmas -/

/-- The shared-cell references held by the registry's records. -/
def regRefs (reg : Registry K) : List Ref := reg.map (fun p => p.2.value)

theorem invalidateScanAux_snd_indep [DecidableEq K] (reg : Registry K) (keys : List K)
    (now : Nat) : ∀ (store store' : Store T E),
      (invalidateScanAux reg store keys now).2 = (invalidateScanAux reg store' keys now).2 := by
  induction reg with
  | nil => intro store store'; rfl
  | cons p rest ih =>
    intro store store'
    obtain ⟨e, ql⟩ := p
    by_cases h : matchedListeners e ql keys = []
    · simp only [invalidateScanAux, if_pos h]
      exact ih store store'
    · simp only [invalidateScanAux, if_neg h]
      rw [ih (writeRef store ql.value (loadingWrite (store ql.value) now))
        (writeRef store' ql.value (loadingWrite (store' ql.value) now))]

theorem invalidateScanAux_store_frame [DecidableEq K] (keys : List K) (now : Nat) :
    ∀ (reg : Registry K) (store : Store T E) (r : Ref), r ∉ regRefs reg →
      (invalidateScanAux reg store keys now).1 r = store r := by
  intro reg
  induction reg with
  | nil => intro store r _; rfl
  | cons p rest ih =>
    intro store r hr
    obtain ⟨e, ql⟩ := p
    have hr1 : r ≠ ql.value := fun hc => hr (by simp [regRefs, hc])
    have hr2 : r ∉ regRefs rest := fun hc => hr (by
      simp only [regRefs, List.map_cons, List.mem_cons]
      exact Or.inr (by simpa [regRefs] using hc))
    by_cases h : matchedListeners e ql keys = []
    · simp only [invalidateScanAux, if_pos h]
      exact ih store r hr2
    · simp only [invalidateScanAux, if_neg h]
      rw [ih _ r hr2]
      simp [writeRef, hr1]

theorem invalidateScanAux_store_matched [DecidableEq K] (keys : List K) (now : Nat) :
    ∀ (reg : Registry K) (store : Store T E) (e : RegistryEntry K) (ql : QueryListeners),
      (e, ql) ∈ reg → (regRefs reg).Nodup →
      entryMatches e.query_keys keys = true → ql.listeners ≠ [] →
      (invalidateScanAux reg store keys now).1 ql.value
        = loadingWrite (store ql.value) now := by
  intro reg
  induction reg with
  | nil => intro store e ql hmem; exact absurd hmem (List.not_mem_nil _)
  | cons p rest ih =>
    intro store e ql hmem hnodup hm hl
    obtain ⟨e0, ql0⟩ := p
    have hnodup' : (regRefs rest).Nodup := by
      simpa [regRefs] using (List.nodup_cons.mp (by simpa [regRefs] using hnodup)).2
    have hhead : ql0.value ∉ regRefs rest :=
      (List.nodup_cons.mp (by simpa [regRefs] using hnodup)).1
    rcases List.mem_cons.mp hmem with heq | hmem'
    · injection heq with he hql
      subst he
      subst hql
      have hml : matchedListeners e ql keys = ql.listeners := by
        simp [matchedListeners, hm]
      have hcond : ¬(matchedListeners e ql keys = []) := by
        rw [hml]
        exact hl
      simp only [invalidateScanAux]
      rw [if_neg hcond]
      show (invalidateScanAux rest
          (writeRef store ql.value (loadingWrite (store ql.value) now)) keys now).1 ql.value
        = loadingWrite (store ql.value) now
      rw [invalidateScanAux_store_frame keys now rest _ ql.value hhead]
      simp [writeRef]
    · have hrefmem : ql.value ∈ regRefs rest := List.mem_map.mpr ⟨(e, ql), hmem', rfl⟩
      by_cases h0 : matchedListeners e0 ql0 keys = []
      · simp only [invalidateScanAux, if_pos h0]
        exact ih store e ql hmem' hnodup' hm hl
      · have hne : ql.value ≠ ql0.value := fun hc => hhead (hc ▸ hrefmem)
        simp only [invalidateScanAux, if_neg h0]
        rw [ih _ e ql hmem' hnodup' hm hl]
        simp [writeRef, hne]

theorem invalidateScanAux_store_unmatched [DecidableEq K] (keys : List K) (now : Nat) :
    ∀ (reg : Registry K) (store : Store T E) (e : RegistryEntry K) (ql : QueryListeners),
      (e, ql) ∈ reg → (regRefs reg).Nodup →
      entryMatches e.query_keys keys = false →
      (invalidateScanAux reg store keys now).1 ql.value = store ql.value := by
  intro reg
  induction reg with
  | nil => intro store e ql hmem; exact absurd hmem (List.not_mem_nil _)
  | cons p rest ih =>
    intro store e ql hmem hnodup hm
    obtain ⟨e0, ql0⟩ := p
    have hnodup' : (regRefs rest).Nodup := by
      simpa [regRefs] using (List.nodup_cons.mp (by simpa [regRefs] using hnodup)).2
    have hhead : ql0.value ∉ regRefs rest :=
      (List.nodup_cons.mp (by simpa [regRefs] using hnodup)).1
    rcases List.mem_cons.mp hmem with heq | hmem'
    · injection heq with he hql
      subst he
      subst hql
      have hml : matchedListeners e ql keys = [] := by
        simp [matchedListeners, hm]
      simp only [invalidateScanAux, if_pos hml]
      exact invalidateScanAux_store_frame keys now rest store ql.value hhead
    · have hrefmem : ql.value ∈ regRefs rest := List.mem_map.mpr ⟨(e, ql), hmem', rfl⟩
      by_cases h0 : matchedListeners e0 ql0 keys = []
      · simp only [invalidateScanAux, if_pos h0]
        exact ih store e ql hmem' hnodup' hm
      · have hne : ql.value ≠ ql0.value := fun hc => hhead (hc ▸ hrefmem)
        simp only [invalidateScanAux, if_neg h0]
        rw [ih _ e ql hmem' hnodup' hm]
        simp [writeRef, hne]

theorem invalidateScanAux_notified_mem [DecidableEq K] (keys : List K) (now : Nat) :
    ∀ (reg : Registry K) (store : Store T E) (e : RegistryEntry K) (ql : QueryListeners),
      (e, ql) ∈ reg → entryMatches e.query_keys keys = true → ql.listeners ≠ [] →
      ql.listeners ∈ (invalidateScanAux reg store keys now).2.1 := by
  intro reg
  induction reg with
  | nil => intro store e ql hmem; exact absurd hmem (List.not_mem_nil _)
  | cons p rest ih =>
    intro store e ql hmem hm hl
    obtain ⟨e0, ql0⟩ := p
    rcases List.mem_cons.mp hmem with heq | hmem'
    · injection heq with he hql
      subst he
      subst hql
      have hml : matchedListeners e ql keys = ql.listeners := by
        simp [matchedListeners, hm]
      have hcond : ¬(matchedListeners e ql keys = []) := by
        rw [hml]
        exact hl
      simp only [invalidateScanAux]
      rw [if_neg hcond]
      show ql.listeners ∈ matchedListeners e ql keys ::
        (invalidateScanAux rest (writeRef store ql.value (loadingWrite (store ql.value) now))
          keys now).2.1
      rw [hml]
      exact List.mem_cons_self _ _
    · by_cases h0 : matchedListeners e0 ql0 keys = []
      · simp only [invalidateScanAux, if_pos h0]
        exact ih store e ql hmem' hm hl
      · simp only [invalidateScanAux, if_neg h0]
        exact List.mem_cons_of_mem _ (ih _ e ql hmem' hm hl)

theorem invalidateScanAux_task_mem [DecidableEq K] (keys : List K) (now : Nat) :
    ∀ (reg : Registry K) (store : Store T E) (e : RegistryEntry K) (ql : QueryListeners),
      (e, ql) ∈ reg → entryMatches e.query_keys keys = true → ql.listeners ≠ [] →
      (⟨ql.query_fn, e.query_keys, ql.listeners, ql.value⟩ : FetchTask K)
        ∈ (invalidateScanAux reg store keys now).2.2 := by
  intro reg
  induction reg with
  | nil => intro store e ql hmem; exact absurd hmem (List.not_mem_nil _)
  | cons p rest ih =>
    intro store e ql hmem hm hl
    obtain ⟨e0, ql0⟩ := p
    rcases List.mem_cons.mp hmem with heq | hmem'
    · injection heq with he hql
      subst he
      subst hql
      have hml : matchedListeners e ql keys = ql.listeners := by
        simp [matchedListeners, hm]
      have hcond : ¬(matchedListeners e ql keys = []) := by
        rw [hml]
        exact hl
      simp only [invalidateScanAux]
      rw [if_neg hcond]
      show (⟨ql.query_fn, e.query_keys, ql.listeners, ql.value⟩ : FetchTask K) ∈
        (⟨ql.query_fn, e.query_keys, matchedListeners e ql keys, ql.value⟩ : FetchTask K) ::
          (invalidateScanAux rest (writeRef store ql.value (loadingWrite (store ql.value) now))
            keys now).2.2
      rw [hml]
      exact List.mem_cons_self _ _
    · by_cases h0 : matchedListeners e0 ql0 keys = []
      · simp only [invalidateScanAux, if_pos h0]
        exact ih store e ql hmem' hm hl
      · simp only [invalidateScanAux, if_neg h0]
        exact List.mem_cons_of_mem _ (ih _ e ql hmem' hm hl)

theorem invalidateScanAux_task_prov [DecidableEq K] (keys : List K) (now : Nat) :
    ∀ (reg : Registry K) (store : Store T E) (t : FetchTask K),
      t ∈ (invalidateScanAux reg store keys now).2.2 →
      ∃ e ql, (e, ql) ∈ reg ∧ entryMatches e.query_keys keys = true ∧ ql.listeners ≠ []
        ∧ t = ⟨ql.query_fn, e.query_keys, ql.listeners, ql.value⟩ := by
  intro reg
  induction reg with
  | nil => intro store t ht; exact absurd ht (List.not_mem_nil _)
  | cons p rest ih =>
    intro store t ht
    obtain ⟨e0, ql0⟩ := p
    by_cases h0 : matchedListeners e0 ql0 keys = []
    · simp only [invalidateScanAux, if_pos h0] at ht
      obtain ⟨e, ql, hmem, hm, hl, hteq⟩ := ih store t ht
      exact ⟨e, ql, List.mem_cons_of_mem _ hmem, hm, hl, hteq⟩
    · have hm0 : entryMatches e0.query_keys keys = true := by
        by_contra hc
        rw [Bool.not_eq_true] at hc
        exact h0 (by simp [matchedListeners, hc])
      have hml : matchedListeners e0 ql0 keys = ql0.listeners := by
        simp [matchedListeners, hm0]
      have hl0 : ql0.listeners ≠ [] := by
        rw [← hml]
        exact h0
      simp only [invalidateScanAux, if_neg h0] at ht
      rcases List.mem_cons.mp ht with heq | ht'
      · exact ⟨e0, ql0, List.mem_cons_self _ _, hm0, hl0, by rw [heq, hml]⟩
      · obtain ⟨e, ql, hmem, hm, hl, hteq⟩ := ih _ t ht'
        exact ⟨e, ql, List.mem_cons_of_mem _ hmem, hm, hl, hteq⟩

theorem invalidateScanAux_notified_prov [DecidableEq K] (keys : List K) (now : Nat) :
    ∀ (reg : Registry K) (store : Store T E) (s : List ScopeId),
      s ∈ (invalidateScanAux reg store keys now).2.1 →
      ∃ e ql, (e, ql) ∈ reg ∧ entryMatches e.query_keys keys = true ∧ ql.listeners ≠ []
        ∧ s = ql.listeners := by
  intro reg
  induction reg with
  | nil => intro store s hs; exact absurd hs (List.not_mem_nil _)
  | cons p rest ih =>
    intro store s hs
    obtain ⟨e0, ql0⟩ := p
    by_cases h0 : matchedListeners e0 ql0 keys = []
    · simp only [invalidateScanAux, if_pos h0] at hs
      obtain ⟨e, ql, hmem, hm, hl, hseq⟩ := ih store s hs
      exact ⟨e, ql, List.mem_cons_of_mem _ hmem, hm, hl, hseq⟩
    · have hm0 : entryMatches e0.query_keys keys = true := by
        by_contra hc
        rw [Bool.not_eq_true] at hc
        exact h0 (by simp [matchedListeners, hc])
      have hml : matchedListeners e0 ql0 keys = ql0.listeners := by
        simp [matchedListeners, hm0]
      have hl0 : ql0.listeners ≠ [] := by
        rw [← hml]
        exact h0
      simp only [invalidateScanAux, if_neg h0] at hs
      rcases List.mem_cons.mp hs with heq | hs'
      · exact ⟨e0, ql0, List.mem_cons_self _ _, hm0, hl0, by rw [heq, hml]⟩
      · obtain ⟨e, ql, hmem, hm, hl, hseq⟩ := ih _ s hs'
        exact ⟨e, ql, List.mem_cons_of_mem _ hmem, hm, hl, hseq⟩

theorem entryMatches_nil [DecidableEq K] (qk : List K) :
    entryMatches qk ([] : List K) = false := by
  simp [entryMatches]

theorem invalidateScanAux_no_match [DecidableEq K] (keys : List K) (now : Nat) :
    ∀ (reg : Registry K) (store : Store T E),
      (∀ p ∈ reg, entryMatches p.1.query_keys keys = false) →
      invalidateScanAux reg store keys now = (store, [], []) := by
  intro reg
  induction reg with
  | nil => intro store _; rfl
  | cons p rest ih =>
    intro store hall
    obtain ⟨e, ql⟩ := p
    have hm := hall (e, ql) (List.mem_cons_self _ _)
    have h : matchedListeners e ql keys = [] := by simp [matchedListeners, hm]
    simp only [invalidateScanAux, if_pos h]
    exact ih store (fun p hp => hall p (List.mem_cons_of_mem _ hp))

theorem invalidateScanAux_store_cases [DecidableEq K] (keys : List K) (now : Nat) :
    ∀ (reg : Registry K) (store : Store T E) (r : Ref),
      (invalidateScanAux reg store keys now).1 r = store r
      ∨ (((invalidateScanAux reg store keys now).1 r).has_been_queried = true
        ∧ ((invalidateScanAux reg store keys now).1 r).instant.isSome = true) := by
  intro reg
  induction reg with
  | nil => intro store r; exact Or.inl rfl
  | cons p rest ih =>
    intro store r
    obtain ⟨e, ql⟩ := p
    by_cases h : matchedListeners e ql keys = []
    · simp only [invalidateScanAux, if_pos h]
      exact ih store r
    · simp only [invalidateScanAux, if_neg h]
      rcases ih (writeRef store ql.value (loadingWrite (store ql.value) now)) r with heq | hflag
      · rw [heq]
        by_cases hr : r = ql.value
        · subst hr
          right
          simp [writeRef, loadingWrite]
        · left
          simp [writeRef, hr]
      · exact Or.inr hflag

/-- C4: for a matching entry with a non-empty listener set (every registered
entry has one on reachable states) and pairwise-distinct shared cells, the
invalidation scan writes the `Loading` transition carrying the value projected
from the current state: `Ok(v) ↦ Loading(Some(v))`, `Err ↦ Loading(None)`,
`Loading(x) ↦ Loading(x)` — never `Loading(None)` after an `Ok(v)`. -/
theorem invalidation_loading_preserves_value {T E K : Type} [DecidableEq K]
    (reg : Registry K) (store : Store T E) (keys : List K) (now : Nat)
    (e : RegistryEntry K) (ql : QueryListeners)
    (hmem : (e, ql) ∈ reg) (hnodup : (regRefs reg).Nodup)
    (hmatch : entryMatches e.query_keys keys = true) (hne : ql.listeners ≠ []) :
    ((invalidateScan reg store keys now).store ql.value).value
        = .Loading (cachedToOption (store ql.value))
    ∧ ((invalidateScan reg store keys now).store ql.value).instant = some now
    ∧ ((invalidateScan reg store keys now).store ql.value).has_been_queried = true
    ∧ (∀ v : T, (store ql.value).value = .Ok v →
        ((invalidateScan reg store keys now).store ql.value).value = .Loading (some v))
    ∧ (∀ er : E, (store ql.value).value = .Err er →
        ((invalidateScan reg store keys now).store ql.value).value = .Loading none)
    ∧ (∀ x : Option T, (store ql.value).value = .Loading x →
        ((invalidateScan reg store keys now).store ql.value).value = .Loading x) := by
  have hbridge : (invalidateScan reg store keys now).store
      = (invalidateScanAux reg store keys now).1 := rfl
  have hw : (invalidateScan reg store keys now).store ql.value
      = loadingWrite (store ql.value) now := by
    rw [hbridge]
    exact invalidateScanAux_store_matched keys now reg store e ql hmem hnodup hmatch hne
  refine ⟨by rw [hw]; rfl, by rw [hw]; rfl, by rw [hw]; rfl, ?_, ?_, ?_⟩
  · intro v hv
    rw [hw]
    simp [loadingWrite, cachedToOption, hv]
  · intro er her
    rw [hw]
    simp [loadingWrite, cachedToOption, her]
  · intro x hx
    rw [hw]
    simp [loadingWrite, cachedToOption, hx]

/-- Witness for C4: invalidating a key of an entry cached at `Ok 5` leaves the
cell in `Loading (some 5)`. -/
theorem invalidation_loading_preserves_value_witness :
    ((invalidateScan [((⟨[4], 1⟩ : RegistryEntry Nat), (⟨0, [1], 1⟩ : QueryListeners))]
        (fun _ => (⟨.Ok 5, some 0, true⟩ : CachedResult Nat Nat)) [4] 7).store 0).value
      = .Loading (some 5) :=
  (invalidation_loading_preserves_value
    [((⟨[4], 1⟩ : RegistryEntry Nat), (⟨0, [1], 1⟩ : QueryListeners))]
    (fun _ => (⟨.Ok 5, some 0, true⟩ : CachedResult Nat Nat)) [4] 7
    ⟨[4], 1⟩ ⟨0, [1], 1⟩ (by decide) (by decide) (by decide)
    (by decide)).2.2.2.1 5 rfl

/-- C7: invalidation matching and frame effect.  The scan never changes the
registry (so no listener set changes); a matching entry with listeners gets
the `Loading` write, an immediate notification and a spawned refetch task; an
entry whose key list is disjoint from the invalidated keys keeps its cell
(value, timestamp, flags) byte-for-byte and no spawned task refetches into its
cell; and every notified listener set belongs to some matching entry. -/
theorem invalidation_matching_frame {T E K : Type} [DecidableEq K]
    (reg : Registry K) (store : Store T E) (keys : List K) (now : Nat)
    (e : RegistryEntry K) (ql : QueryListeners)
    (hmem : (e, ql) ∈ reg) (hnodup : (regRefs reg).Nodup) :
    (invalidateScan reg store keys now).registry = reg
    ∧ (entryMatches e.query_keys keys = true → ql.listeners ≠ [] →
        ((invalidateScan reg store keys now).store ql.value
            = loadingWrite (store ql.value) now
        ∧ ql.listeners ∈ (invalidateScan reg store keys now).notified
        ∧ (⟨ql.query_fn, e.query_keys, ql.listeners, ql.value⟩ : FetchTask K)
            ∈ (invalidateScan reg store keys now).tasks))
    ∧ (entryMatches e.query_keys keys = false →
        ((invalidateScan reg store keys now).store ql.value = store ql.value
        ∧ (∀ t ∈ (invalidateScan reg store keys now).tasks, t.valueRef ≠ ql.value)))
    ∧ (∀ s ∈ (invalidateScan reg store keys now).notified,
        ∃ e2 ql2, (e2, ql2) ∈ reg ∧ entryMatches e2.query_keys keys = true
          ∧ ql2.listeners ≠ [] ∧ s = ql2.listeners) := by
  have hbridge : (invalidateScan reg store keys now).store
      = (invalidateScanAux reg store keys now).1 := rfl
  refine ⟨rfl, ?_, ?_, ?_⟩
  · intro hm hl
    refine ⟨?_, ?_, ?_⟩
    · rw [hbridge]
      exact invalidateScanAux_store_matched keys now reg store e ql hmem hnodup hm hl
    · exact invalidateScanAux_notified_mem keys now reg store e ql hmem hm hl
    · exact invalidateScanAux_task_mem keys now reg store e ql hmem hm hl
  · intro hm
    refine ⟨?_, ?_⟩
    · rw [hbridge]
      exact invalidateScanAux_store_unmatched keys now reg store e ql hmem hnodup hm
    · intro t ht hc
      obtain ⟨e2, ql2, hmem2, hm2, _, hteq⟩ :=
        invalidateScanAux_task_prov keys now reg store t ht
      have hval : ql2.value = ql.value := by
        rw [hteq] at hc
        exact hc
      have hpair : (e2, ql2) = (e, ql) :=
        List.inj_on_of_nodup_map
          (show ((reg.map (fun p => p.2.value)).Nodup) from hnodup) hmem2 hmem hval
      have he2 : e2 = e := (Prod.mk.injEq _ _ _ _ |>.mp hpair).1
      rw [he2] at hm2
      rw [hm2] at hm
      exact Bool.noConfusion hm
  · intro s hs
    exact invalidateScanAux_notified_prov keys now reg store s hs

/-- Witness for C7: a registry with one matching and one disjoint entry; the
matching entry is written and refetched, the disjoint entry is untouched. -/
theorem invalidation_matching_frame_witness :
    (invalidateScan
        [((⟨[4], 1⟩ : RegistryEntry Nat), (⟨0, [1], 1⟩ : QueryListeners)),
         ((⟨[9], 2⟩ : RegistryEntry Nat), (⟨1, [2], 2⟩ : QueryListeners))]
        (fun _ => (⟨.Ok 5, some 0, true⟩ : CachedResult Nat Nat)) [4] 7).store 0
      = loadingWrite (⟨.Ok 5, some 0, true⟩ : CachedResult Nat Nat) 7
    ∧ ([1] : List ScopeId) ∈ (invalidateScan
        [((⟨[4], 1⟩ : RegistryEntry Nat), (⟨0, [1], 1⟩ : QueryListeners)),
         ((⟨[9], 2⟩ : RegistryEntry Nat), (⟨1, [2], 2⟩ : QueryListeners))]
        (fun _ => (⟨.Ok 5, some 0, true⟩ : CachedResult Nat Nat)) [4] 7).notified
    ∧ (invalidateScan
        [((⟨[4], 1⟩ : RegistryEntry Nat), (⟨0, [1], 1⟩ : QueryListeners)),
         ((⟨[9], 2⟩ : RegistryEntry Nat), (⟨1, [2], 2⟩ : QueryListeners))]
        (fun _ => (⟨.Ok 5, some 0, true⟩ : CachedResult Nat Nat)) [4] 7).store 1
      = (⟨.Ok 5, some 0, true⟩ : CachedResult Nat Nat) := by
  have h1 := invalidation_matching_frame
    [((⟨[4], 1⟩ : RegistryEntry Nat), (⟨0, [1], 1⟩ : QueryListeners)),
     ((⟨[9], 2⟩ : RegistryEntry Nat), (⟨1, [2], 2⟩ : QueryListeners))]
    (fun _ => (⟨.Ok 5, some 0, true⟩ : CachedResult Nat Nat)) [4] 7
    ⟨[4], 1⟩ ⟨0, [1], 1⟩ (by decide) (by decide)
  have h2 := invalidation_matching_frame
    [((⟨[4], 1⟩ : RegistryEntry Nat), (⟨0, [1], 1⟩ : QueryListeners)),
     ((⟨[9], 2⟩ : RegistryEntry Nat), (⟨1, [2], 2⟩ : QueryListeners))]
    (fun _ => (⟨.Ok 5, some 0, true⟩ : CachedResult Nat Nat)) [4] 7
    ⟨[9], 2⟩ ⟨1, [2], 2⟩ (by decide) (by decide)
  have hm1 := h1.2.1 (by decide) (by decide)
  have hm2 := h2.2.2.1 (by decide)
  exact ⟨hm1.1, hm1.2.1, hm2.1⟩

/-- C9: invalidating an empty key list, or keys disjoint from every entry's
key list, is the identity: the store is returned unchanged (no cached value
modified), no listener is notified in either phase, and no fetch task is run. -/
theorem invalidate_disjoint_identity {T E K : Type} [DecidableEq K]
    (reg : Registry K) (store : Store T E) (keys : List K) (now : Nat)
    (fetch : Nat → List K → QueryResult T E) (nowDone : Nat) :
    invalidate_queries_inner reg store [] now fetch nowDone
        = ⟨store, [], []⟩
    ∧ ((∀ p ∈ reg, entryMatches p.1.query_keys keys = false) →
        invalidate_queries_inner reg store keys now fetch nowDone = ⟨store, [], []⟩) := by
  have key : ∀ (ks : List K), (∀ p ∈ reg, entryMatches p.1.query_keys ks = false) →
      invalidate_queries_inner reg store ks now fetch nowDone = ⟨store, [], []⟩ := by
    intro ks hall
    have h := invalidateScanAux_no_match ks now reg store hall
    simp [invalidate_queries_inner, invalidateScan, h]
  exact ⟨key [] (fun p _ => entryMatches_nil p.1.query_keys), key keys⟩

/-- Witness for C9: a concrete registry and disjoint keys. -/
theorem invalidate_disjoint_identity_witness :
    invalidate_queries_inner
        [((⟨[4], 1⟩ : RegistryEntry Nat), (⟨0, [1], 1⟩ : QueryListeners))]
        (fun _ => (CachedResult.defaultValue : CachedResult Nat Nat)) [9] 3
        (fun _ _ => .Ok 0) 4
      = ⟨(fun _ => (CachedResult.defaultValue : CachedResult Nat Nat)), [], []⟩ :=
  (invalidate_disjoint_identity
    [((⟨[4], 1⟩ : RegistryEntry Nat), (⟨0, [1], 1⟩ : QueryListeners))]
    (fun _ => (CachedResult.defaultValue : CachedResult Nat Nat)) [9] 3
    (fun _ _ => .Ok 0) 4).2 (by decide)

/-- "The engine never resets the lifecycle flags": once `has_been_queried` is
`true` it stays `true`, and once `instant` is `Some` it stays `Some`. -/
def flagsMonotone (oldc newc : CachedResult T E) : Prop :=
  (oldc.has_been_queried = true → newc.has_been_queried = true)
  ∧ (oldc.instant.isSome = true → newc.instant.isSome = true)

/-- C10: every engine write is monotone in the lifecycle flags: along the
whole write sequence of `validate_new_query`, across the invalidation scan,
and across a fetch-completion write, `has_been_queried` never returns to
`false` and a set timestamp never returns to `None`. -/
theorem engine_writes_flags_monotone {T E K : Type} [DecidableEq K] :
    (∀ (c : CachedResult T E) (ls : List ScopeId) (now : Nat) (f : QueryResult T E)
        (nd : Nat) (lsd : List ScopeId),
        List.Chain flagsMonotone c (validate_new_query c ls now f nd lsd).writes)
    ∧ (∀ (reg : Registry K) (store : Store T E) (keys : List K) (now : Nat) (r : Ref),
        flagsMonotone (store r) ((invalidateScan reg store keys now).store r))
    ∧ (∀ (store : Store T E) (t : FetchTask K) (f : QueryResult T E) (nd : Nat) (r : Ref),
        flagsMonotone (store r) ((completeTask store t f nd).1 r)) := by
  refine ⟨?_, ?_, ?_⟩
  · intro c ls now f nd lsd
    unfold validate_new_query
    by_cases h : ((!c.is_fresh now && !c.value.is_loading) || !c.has_been_queried) = true
    · rw [if_pos h]
      by_cases hc : c.has_been_cached = true
      · rw [if_pos hc]
        exact .cons ⟨fun _ => rfl, fun _ => rfl⟩
          (.cons ⟨fun _ => rfl, fun _ => rfl⟩
            (.cons ⟨fun _ => rfl, fun _ => rfl⟩ .nil))
      · rw [if_neg hc]
        exact .cons ⟨fun _ => rfl, fun hi => hi⟩
          (.cons ⟨fun _ => rfl, fun _ => rfl⟩ .nil)
    · rw [if_neg h]
      exact .nil
  · intro reg store keys now r
    have hbridge : (invalidateScan reg store keys now).store
        = (invalidateScanAux reg store keys now).1 := rfl
    rw [hbridge]
    rcases invalidateScanAux_store_cases keys now reg store r with heq | hflag
    · rw [heq]
      exact ⟨fun hq => hq, fun hi => hi⟩
    · exact ⟨fun _ => hflag.1, fun _ => hflag.2⟩
  · intro store t f nd r
    by_cases hr : r = t.valueRef
    · subst hr
      exact ⟨fun _ => by simp [completeTask, writeRef, completionWrite],
        fun _ => by simp [completeTask, writeRef, completionWrite]⟩
    · have : (completeTask store t f nd).1 r = store r := by
        simp [completeTask, writeRef, hr]
      rw [this]
      exact ⟨fun hq => hq, fun hi => hi⟩

/-- Witness for C10: the flags stay set across a concrete invalidation write. -/
theorem engine_writes_flags_monotone_witness :
    ((invalidateScan [((⟨[4], 1⟩ : RegistryEntry Nat), (⟨0, [1], 1⟩ : QueryListeners))]
        (fun _ => (⟨.Ok 5, some 0, true⟩ : CachedResult Nat Nat)) [4] 7).store 0).has_been_queried
      = true :=
  ((engine_writes_flags_monotone (T := Nat) (E := Nat) (K := Nat)).2.1
    [((⟨[4], 1⟩ : RegistryEntry Nat), (⟨0, [1], 1⟩ : QueryListeners))]
    (fun _ => (⟨.Ok 5, some 0, true⟩ : CachedResult Nat Nat)) [4] 7 0).1 rfl

/-! ## Concrete scenarios: listeners changing while a fetch is outstanding -/

/-- A registry entry with one key and one listener, used as concrete input. -/
def exEntry : RegistryEntry Nat := ⟨[10], 7⟩

/-- The record of `exEntry`: cell `0`, listener `1`, fetch function `7`. -/
def exRecord : QueryListeners := ⟨0, [1], 7⟩

/-- A one-entry client state. -/
def exState : ClientState Nat Nat Nat :=
  ⟨fun _ => CachedResult.defaultValue, [(exEntry, exRecord)], 1⟩

/-- The single refetch task spawned by invalidating key `10` on `exState`. -/
def exTask : FetchTask Nat := ⟨7, [10], [1], 0⟩

/-- `exState` after the invalidation scan has run and, while the refetch is
still outstanding, a second component (scope `2`) subscribes to the same
entry. -/
def exLater : ClientState Nat Nat Nat :=
  subscribe
    { exState with store := (invalidateScan exState.registry exState.store [10] 2).store }
    exEntry 7 2

/-- C1 counterexample: invalidating key `10` spawns `exTask`, which captured
listener set `[1]`.  A second listener subscribes before the fetch completes,
so the entry's listener set in the registry at completion time is `[2, 1]`.
The completed task notifies the captured set `[1]` — scope `2` is a current
listener yet is not notified — so the notified set is not the registry's
listener set re-read at completion time. -/
theorem invalidation_notifies_stale_listener_set :
    (invalidateScan exState.registry exState.store [10] 2).tasks = [exTask]
    ∧ (completeTask exLater.store exTask (.Ok 9) 4).2 = [1]
    ∧ (lookupEntry exLater.registry exEntry).map QueryListeners.listeners = some [2, 1]
    ∧ 2 ∈ ((lookupEntry exLater.registry exEntry).map QueryListeners.listeners).getD []
    ∧ 2 ∉ (completeTask exLater.store exTask (.Ok 9) 4).2
    ∧ (completeTask exLater.store exTask (.Ok 9) 4).2
        ≠ ((lookupEntry exLater.registry exEntry).map QueryListeners.listeners).getD [] := by
  decide

/-- C1 amended: every invalidation-triggered refetch task notifies, at
completion, exactly the listener set captured when the fetch was launched
(the matching entry's listener set at invalidation time), regardless of how
the registry has changed since. -/
theorem invalidation_task_notifies_captured_listeners {T E K : Type} [DecidableEq K]
    (reg : Registry K) (store : Store T E) (keys : List K) (now : Nat) (t : FetchTask K)
    (ht : t ∈ (invalidateScan reg store keys now).tasks) :
    (∀ (store2 : Store T E) (f : QueryResult T E) (nd : Nat),
        (completeTask store2 t f nd).2 = t.query_listeners)
    ∧ ∃ e ql, (e, ql) ∈ reg ∧ entryMatches e.query_keys keys = true
        ∧ ql.listeners ≠ [] ∧ t.query_listeners = ql.listeners := by
  refine ⟨fun _ _ _ => rfl, ?_⟩
  obtain ⟨e, ql, hmem, hm, hl, hteq⟩ := invalidateScanAux_task_prov keys now reg store t ht
  exact ⟨e, ql, hmem, hm, hl, by rw [hteq]⟩

/-- Witness for the amended C1 at a concrete input. -/
theorem invalidation_task_notifies_captured_listeners_witness :
    (completeTask (fun _ => (CachedResult.defaultValue : CachedResult Nat Nat))
        exTask (.Ok 3) 5).2 = exTask.query_listeners :=
  (invalidation_task_notifies_captured_listeners exState.registry exState.store [10] 2
    exTask (by decide)).1 (fun _ => CachedResult.defaultValue) (.Ok 3) 5

/-- A freshly mounted subscription: one component (scope `1`) subscribed to
the entry `⟨[5], 3⟩`; its initial `validate_new_query` has been spawned and
its fetch is outstanding. -/
def exMount : ClientState Nat Nat Nat :=
  subscribe ⟨fun _ => CachedResult.defaultValue, [], 0⟩ ⟨[5], 3⟩ 3 1

/-- `exMount` after its only listener unsubscribed (component unmounted)
while the fetch was still outstanding: the entry is deleted. -/
def exUnmounted : ClientState Nat Nat Nat := dropListener exMount ⟨[5], 3⟩ 1

/-- C2: when every listener of an entry unsubscribes while a
`validate_new_query` fetch is in flight, the entry is deleted from the
registry; the fetch still completes and its result is written through the
task's own reference to the shared cell, but the final notification step —
`get_entry`, i.e. `registry.get(entry).unwrap()` — finds no entry and
panics (`none`) instead of becoming a no-op. -/
theorem validate_completion_panics_after_unmount :
    lookupEntry exMount.registry ⟨[5], 3⟩ = some ⟨0, [1], 3⟩
    ∧ lookupEntry exUnmounted.registry ⟨[5], 3⟩ = none
    ∧ (validatePost exUnmounted ⟨[5], 3⟩ 0 (.Ok 42) 9).1 0 = completionWrite (.Ok 42) 9
    ∧ (validatePost exUnmounted ⟨[5], 3⟩ 0 (.Ok 42) 9).2 = none := by
  decide

end DioxusQuery
